import Mathlib

/-
Verification of the state-synchronization core of tradfri-indicator
(src/tradfri-indicator.py), as a shallow embedding in Lean.

Python objects are embedded as follows:
- pytradfri Light / Device / Group / Mood become structures carrying exactly
  the attributes the program reads (Light.state, Device.id / name /
  has_light_control / light_control.lights, Group.id / name / member_ids,
  Mood.id / name).
- the dict self.lights (API id -> Light) becomes an association list with
  Python-dict get / overwrite-set semantics (dictGet / dictSet).
- machine integers are Nat (ids never overflow in the program).
-/

/-- A pytradfri Light: the program only ever reads its on/off state
(Light.state, a boolean). -/
structure LightM where
  state : Bool
  deriving DecidableEq, Repr

/-- A pytradfri Device as the program uses it: numeric id, display name,
the has_light_control capability flag, and the list device.light_control.lights
(flattened here into the field lights; the program only touches lights[0]). -/
structure DeviceM where
  id : Nat
  name : String
  has_light_control : Bool
  lights : List LightM
  deriving DecidableEq, Repr

/-- A pytradfri Group: numeric id, display name, member device ids. -/
structure GroupM where
  id : Nat
  name : String
  member_ids : List Nat
  deriving DecidableEq, Repr

/-- A pytradfri Mood: numeric id and display name. -/
structure MoodM where
  id : Nat
  name : String
  deriving DecidableEq, Repr

/-- SUPERGROUP = 131073 (line 24 of the source). -/
def SUPERGROUP : Nat := 131073

/-- Python dict read, d.get(k): the value stored for key k, if any.
The dict is embedded as an association list where the most recent binding
for a key shadows older ones (dictSet removes older bindings). -/
def dictGet {α : Type} (m : List (Nat × α)) (k : Nat) : Option α :=
  (m.find? (fun p => p.1 == k)).map Prod.snd

/-- Python dict write, d[k] = v: overwrite the binding for k (last write wins). -/
def dictSet {α : Type} (m : List (Nat × α)) (k : Nat) (v : α) : List (Nat × α) :=
  (k, v) :: m.filter (fun p => p.1 != k)

theorem find?_filter_ne {α : Type} (m : List (Nat × α)) (k x : Nat) (hxk : x ≠ k) :
    (m.filter (fun p => p.1 != k)).find? (fun p => p.1 == x)
      = m.find? (fun p => p.1 == x) := by
  induction m with
  | nil => rfl
  | cons p m ih =>
    by_cases hpk : p.1 = k
    · have h1 : (p.1 != k) = false := by simp [hpk]
      have h2 : (p.1 == x) = false := by
        simp only [beq_eq_false_iff_ne, ne_eq, hpk]
        exact fun h => hxk h.symm
      simp [List.filter_cons, h1, List.find?_cons, h2, ih]
    · have h1 : (p.1 != k) = true := by simp [hpk]
      by_cases hpx : p.1 = x
      · simp [List.filter_cons, h1, List.find?_cons, hpx, hxk]
      · have h2 : (p.1 == x) = false := by simp [hpx]
        simp [List.filter_cons, h1, List.find?_cons, h2, ih]

/-- Reading a key after a dict write: the written key returns the new value,
every other key is untouched. -/
theorem dictGet_dictSet {α : Type} (m : List (Nat × α)) (k x : Nat) (v : α) :
    dictGet (dictSet m k v) x = if x = k then some v else dictGet m x := by
  unfold dictGet dictSet
  by_cases h : x = k
  · subst h
    simp [List.find?_cons]
  · have hk : (k == x) = false := by
      simp only [beq_eq_false_iff_ne, ne_eq]
      exact fun hkx => h hkx.symm
    simp only [List.find?_cons, hk, if_neg h]
    rw [find?_filter_ne m k x h]

/-- _get_group_state, lines 241-245: the comprehension
[self.lights.get(d).state for d in group.member_ids if self.lights.get(d) is not None]. -/
def light_states (lights : List (Nat × LightM)) (group : GroupM) : List Bool :=
  group.member_ids.filterMap (fun device_id => (dictGet lights device_id).map LightM.state)

/-- _get_group_state, lines 237-251: first component is the any-lamp-active bit,
second is the all-lamps-consistent bit, computed from all()/any() over the
queryable members' states exactly as the source does. -/
def get_group_state (lights : List (Nat × LightM)) (group : GroupM) : Bool × Bool :=
  if (light_states lights group).all (fun s => s) then (true, true)
  else if (light_states lights group).any (fun s => s) then (true, false)
  else (false, true)

/-- _load_devices_and_rooms, lines 164-167: needed_lights accumulates every
member id of every group (a Python set; only membership is ever used). -/
def needed_lights (groups : List GroupM) : List Nat :=
  groups.foldl (fun acc g => acc ++ g.member_ids) []

/-- device.light_control.lights[0] as read at lines 176 and 255. In Python this
indexing presupposes a nonempty light list (true of every device with
has_light_control); the total embedding defaults to an off light. -/
def first_light (dev : DeviceM) : LightM :=
  dev.lights.head?.getD ⟨false⟩

/-- One iteration of the seeding loop at lines 174-177: a device with light
control that some group references is stored in the lights dict and queued
for observation; any other device is skipped. The accumulator carries the
lights dict and the ids handed to _observe, in order. -/
def seed_step (groups : List GroupM) (st : List (Nat × LightM) × List Nat)
    (dev : DeviceM) : List (Nat × LightM) × List Nat :=
  if dev.has_light_control = true ∧ dev.id ∈ needed_lights groups then
    (dictSet st.1 dev.id (first_light dev), st.2 ++ [dev.id])
  else st

/-- The whole seeding loop of _load_devices_and_rooms over the fetched device
inventory, starting from the empty registry (lines 147-177). -/
def seed_fold (groups : List GroupM) (devices : List DeviceM) :
    List (Nat × LightM) × List Nat :=
  devices.foldl (seed_step groups) ([], [])

/-- The lights registry produced by Bootstrap/Sync. -/
def seed_registry (groups : List GroupM) (devices : List DeviceM) :
    List (Nat × LightM) :=
  (seed_fold groups devices).1

/-- The device ids _observe is called on during Bootstrap/Sync, in order. -/
def observed_ids (groups : List GroupM) (devices : List DeviceM) : List Nat :=
  (seed_fold groups devices).2

/-- The observation update callback, lines 254-258: store the first light of the
updated device under its id (dict overwrite, last write wins). -/
def observe_callback (lights : List (Nat × LightM)) (updated_device : DeviceM) :
    List (Nat × LightM) :=
  dictSet lights updated_device.id (first_light updated_device)

/-- The expected-termination payload compared against at line 261. -/
def observing_stopped : String := "Observing stopped."

/-- err_callback, lines 260-262: report (print) the error unless it is exactly
the expected-termination payload. The callback returns normally in both cases;
nothing escalates past it. -/
def err_callback_reports (err : String) : Bool :=
  err != observing_stopped

/-- A sample unexpected error payload, for concrete evaluation. -/
def sample_error : String := "connection refused"

/-- The group a test scenario uses: no members at all, hence no queryable ones. -/
def empty_group : GroupM :=
  { id := 1, name := "Empty room", member_ids := [] }

/-- C9: the group-status computation is a total function and never yields
(any_on = false, all_consistent = false): whenever the first component is
false the second is true, for every registry and every group. -/
theorem group_state_never_false_false (lights : List (Nat × LightM)) (group : GroupM) :
    get_group_state lights group ≠ (false, false) ∧
      ((get_group_state lights group).1 = false → (get_group_state lights group).2 = true) := by
  unfold get_group_state
  split
  · simp
  · split
    · simp
    · simp

/-- C1 evaluation: immediately after seeding, a group with zero queryable members
(here: an empty member list, seeded from an empty device inventory) gets group
state (true, true) from the code, because Python's all([]) is True — while both
the claim and the function's own docstring ("the first bool represents if any
lamp is active") require (false, true). -/
theorem group_state_zero_queryable_eval :
    get_group_state (seed_registry [empty_group] []) empty_group = (true, true) := by
  rfl

/-- C2: for a group with at least one queryable member, the state is (true, true)
iff every queryable member is on, (false, true) iff every queryable member is
off, and (true, false) iff the queryable members are mixed. -/
theorem group_state_nonempty_characterization
    (lights : List (Nat × LightM)) (group : GroupM)
    (hq : ∃ did ∈ group.member_ids, (dictGet lights did).isSome = true) :
    (get_group_state lights group = (true, true) ↔
        ∀ b ∈ light_states lights group, b = true) ∧
      (get_group_state lights group = (false, true) ↔
        ∀ b ∈ light_states lights group, b = false) ∧
      (get_group_state lights group = (true, false) ↔
        ((∃ b ∈ light_states lights group, b = true) ∧
          (∃ b ∈ light_states lights group, b = false))) := by
  obtain ⟨did, hmem, hsome⟩ := hq
  obtain ⟨l, hl⟩ := Option.isSome_iff_exists.mp hsome
  have hne : l.state ∈ light_states lights group := by
    unfold light_states
    exact List.mem_filterMap.mpr ⟨did, hmem, by rw [hl]; rfl⟩
  unfold get_group_state
  split
  · rename_i hall
    have hallt : ∀ b ∈ light_states lights group, b = true := by
      intro b hb
      simpa using List.all_eq_true.mp hall b hb
    refine ⟨⟨fun _ => hallt, fun _ => rfl⟩,
      ⟨fun h => absurd h (by decide), fun h => ?_⟩,
      ⟨fun h => absurd h (by decide), fun h => ?_⟩⟩
    · have h1 := hallt _ hne
      have h2 := h _ hne
      rw [h1] at h2
      exact absurd h2 (by decide)
    · obtain ⟨-, bf, hbf, hbff⟩ := h
      have h1 := hallt bf hbf
      rw [h1] at hbff
      exact absurd hbff (by decide)
  · rename_i hnall
    split
    · rename_i hany
      obtain ⟨bt, hbt, hbtt'⟩ := List.any_eq_true.mp hany
      have hbtt : bt = true := by simpa using hbtt'
      rw [List.all_eq_true] at hnall
      push_neg at hnall
      obtain ⟨bf, hbf, hbff⟩ := hnall
      have hbf0 : bf = false := by simpa using hbff
      refine ⟨⟨fun h => absurd h (by decide), fun h => ?_⟩,
        ⟨fun h => absurd h (by decide), fun h => ?_⟩,
        ⟨fun _ => ⟨⟨bt, hbt, hbtt⟩, ⟨bf, hbf, hbf0⟩⟩, fun _ => rfl⟩⟩
      · have h1 := h bf hbf
        rw [h1] at hbf0
        exact absurd hbf0 (by decide)
      · have h1 := h bt hbt
        rw [h1] at hbtt
        exact absurd hbtt (by decide)
    · rename_i hnany
      have hallf : ∀ b ∈ light_states lights group, b = false := by
        intro b hb
        by_contra hbx
        have hbt : b = true := by simpa using hbx
        exact hnany (List.any_eq_true.mpr ⟨b, hb, by simp [hbt]⟩)
      refine ⟨⟨fun h => absurd h (by decide), fun h => ?_⟩,
        ⟨fun _ => hallf, fun _ => rfl⟩,
        ⟨fun h => absurd h (by decide), fun h => ?_⟩⟩
      · have h1 := h _ hne
        have h2 := hallf _ hne
        rw [h1] at h2
        exact absurd h2 (by decide)
      · obtain ⟨⟨bt, hbt, hbtt⟩, -⟩ := h
        have h1 := hallf bt hbt
        rw [h1] at hbtt
        exact absurd hbtt (by decide)

/-- C2 witness: a one-member group whose member is on yields (true, true). -/
theorem group_state_nonempty_characterization_witness :
    (get_group_state [(7, ⟨true⟩)] ⟨5, "A", [7]⟩ = (true, true) ↔
        ∀ b ∈ light_states [(7, ⟨true⟩)] ⟨5, "A", [7]⟩, b = true) ∧
      (get_group_state [(7, ⟨true⟩)] ⟨5, "A", [7]⟩ = (false, true) ↔
        ∀ b ∈ light_states [(7, ⟨true⟩)] ⟨5, "A", [7]⟩, b = false) ∧
      (get_group_state [(7, ⟨true⟩)] ⟨5, "A", [7]⟩ = (true, false) ↔
        ((∃ b ∈ light_states [(7, ⟨true⟩)] ⟨5, "A", [7]⟩, b = true) ∧
          (∃ b ∈ light_states [(7, ⟨true⟩)] ⟨5, "A", [7]⟩, b = false))) :=
  group_state_nonempty_characterization [(7, ⟨true⟩)] ⟨5, "A", [7]⟩
    ⟨7, by decide, by decide⟩

/-- C6: the expected-termination payload is suppressed, every other error
payload is reported, and the callback is a total function (the error never
escalates past it). -/
theorem err_callback_report_characterization :
    err_callback_reports observing_stopped = false ∧
      ∀ e : String, e ≠ observing_stopped → err_callback_reports e = true := by
  refine ⟨by decide, ?_⟩
  intro e he
  unfold err_callback_reports
  simpa using he

/-- C6 witness: a concrete unexpected payload is reported. -/
theorem err_callback_report_characterization_witness :
    err_callback_reports sample_error = true :=
  err_callback_report_characterization.2 sample_error (by decide)

theorem dictGet_dictSet_isSome {α : Type} (m : List (Nat × α)) (k x : Nat) (v : α) :
    (dictGet (dictSet m k v) x).isSome = true ↔ x = k ∨ (dictGet m x).isSome = true := by
  rw [dictGet_dictSet]
  by_cases h : x = k <;> simp [h]

theorem mem_needed_lights_aux (groups : List GroupM) (acc : List Nat) (x : Nat) :
    x ∈ groups.foldl (fun acc g => acc ++ g.member_ids) acc ↔
      x ∈ acc ∨ ∃ g ∈ groups, x ∈ g.member_ids := by
  induction groups generalizing acc with
  | nil => simp
  | cons g gs ih =>
    rw [List.foldl_cons, ih]
    simp only [List.mem_append, List.mem_cons]
    constructor
    · rintro ((hx | hx) | ⟨g2, hg2, hx⟩)
      · exact Or.inl hx
      · exact Or.inr ⟨g, Or.inl rfl, hx⟩
      · exact Or.inr ⟨g2, Or.inr hg2, hx⟩
    · rintro (hx | ⟨g2, (rfl | hg2), hx⟩)
      · exact Or.inl (Or.inl hx)
      · exact Or.inl (Or.inr hx)
      · exact Or.inr ⟨g2, hg2, hx⟩

theorem seed_fold_registry_mem (groups : List GroupM) (devices : List DeviceM)
    (m : List (Nat × LightM)) (obs : List Nat) (x : Nat) :
    (dictGet (devices.foldl (seed_step groups) (m, obs)).1 x).isSome = true ↔
      ((dictGet m x).isSome = true ∨
        ∃ dev ∈ devices, dev.id = x ∧ dev.has_light_control = true ∧
          dev.id ∈ needed_lights groups) := by
  induction devices generalizing m obs with
  | nil => simp
  | cons d ds ih =>
    rw [List.foldl_cons]
    by_cases hc : d.has_light_control = true ∧ d.id ∈ needed_lights groups
    · rw [show seed_step groups (m, obs) d
          = (dictSet m d.id (first_light d), obs ++ [d.id]) from by
        simp [seed_step, hc]]
      rw [ih, dictGet_dictSet_isSome]
      constructor
      · rintro ((hx | hsome) | ⟨dev, hdev, hdx, hdl, hdn⟩)
        · exact Or.inr ⟨d, List.mem_cons_self d ds, hx.symm, hc.1, hc.2⟩
        · exact Or.inl hsome
        · exact Or.inr ⟨dev, List.mem_cons_of_mem d hdev, hdx, hdl, hdn⟩
      · rintro (hsome | ⟨dev, hdev, hdx, hdl, hdn⟩)
        · exact Or.inl (Or.inr hsome)
        · rcases List.mem_cons.mp hdev with rfl | hdev2
          · exact Or.inl (Or.inl hdx.symm)
          · exact Or.inr ⟨dev, hdev2, hdx, hdl, hdn⟩
    · rw [show seed_step groups (m, obs) d = (m, obs) from by simp [seed_step, hc]]
      rw [ih]
      constructor
      · rintro (hsome | ⟨dev, hdev, hdx, hdl, hdn⟩)
        · exact Or.inl hsome
        · exact Or.inr ⟨dev, List.mem_cons_of_mem d hdev, hdx, hdl, hdn⟩
      · rintro (hsome | ⟨dev, hdev, hdx, hdl, hdn⟩)
        · exact Or.inl hsome
        · rcases List.mem_cons.mp hdev with rfl | hdev2
          · exact absurd ⟨hdl, hdn⟩ hc
          · exact Or.inr ⟨dev, hdev2, hdx, hdl, hdn⟩

theorem seed_fold_observed_mem (groups : List GroupM) (devices : List DeviceM)
    (m : List (Nat × LightM)) (obs : List Nat) (x : Nat) :
    x ∈ (devices.foldl (seed_step groups) (m, obs)).2 ↔
      (x ∈ obs ∨
        ∃ dev ∈ devices, dev.id = x ∧ dev.has_light_control = true ∧
          dev.id ∈ needed_lights groups) := by
  induction devices generalizing m obs with
  | nil => simp
  | cons d ds ih =>
    rw [List.foldl_cons]
    by_cases hc : d.has_light_control = true ∧ d.id ∈ needed_lights groups
    · rw [show seed_step groups (m, obs) d
          = (dictSet m d.id (first_light d), obs ++ [d.id]) from by
        simp [seed_step, hc]]
      rw [ih]
      simp only [List.mem_append, List.mem_singleton]
      constructor
      · rintro ((hx | hx) | ⟨dev, hdev, hdx, hdl, hdn⟩)
        · exact Or.inl hx
        · exact Or.inr ⟨d, List.mem_cons_self d ds, hx.symm, hc.1, hc.2⟩
        · exact Or.inr ⟨dev, List.mem_cons_of_mem d hdev, hdx, hdl, hdn⟩
      · rintro (hx | ⟨dev, hdev, hdx, hdl, hdn⟩)
        · exact Or.inl (Or.inl hx)
        · rcases List.mem_cons.mp hdev with rfl | hdev2
          · exact Or.inl (Or.inr hdx.symm)
          · exact Or.inr ⟨dev, hdev2, hdx, hdl, hdn⟩
    · rw [show seed_step groups (m, obs) d = (m, obs) from by simp [seed_step, hc]]
      rw [ih]
      constructor
      · rintro (hx | ⟨dev, hdev, hdx, hdl, hdn⟩)
        · exact Or.inl hx
        · exact Or.inr ⟨dev, List.mem_cons_of_mem d hdev, hdx, hdl, hdn⟩
      · rintro (hx | ⟨dev, hdev, hdx, hdl, hdn⟩)
        · exact Or.inl hx
        · rcases List.mem_cons.mp hdev with rfl | hdev2
          · exact absurd ⟨hdl, hdn⟩ hc
          · exact Or.inr ⟨dev, hdev2, hdx, hdl, hdn⟩

/-- C7: after Bootstrap/Sync, an id is stored in the lights registry iff it is
observed iff it belongs to an inventory device that has light control and is
referenced by some group's member list; a device lacking either condition is
never stored and never observed. -/
theorem bootstrap_tracked_iff (groups : List GroupM) (devices : List DeviceM) (x : Nat) :
    ((dictGet (seed_registry groups devices) x).isSome = true ↔
       ∃ dev ∈ devices, dev.id = x ∧ dev.has_light_control = true ∧
         ∃ g ∈ groups, dev.id ∈ g.member_ids) ∧
      (x ∈ observed_ids groups devices ↔
       ∃ dev ∈ devices, dev.id = x ∧ dev.has_light_control = true ∧
         ∃ g ∈ groups, dev.id ∈ g.member_ids) := by
  have hneed : ∀ dev : DeviceM,
      dev.id ∈ needed_lights groups ↔ ∃ g ∈ groups, dev.id ∈ g.member_ids := by
    intro dev
    have := mem_needed_lights_aux groups [] dev.id
    simpa [needed_lights] using this
  have h1 := seed_fold_registry_mem groups devices [] [] x
  have h2 := seed_fold_observed_mem groups devices [] [] x
  simp only [hneed] at h1 h2
  constructor
  · rw [seed_registry, seed_fold, h1]
    simp [dictGet]
  · rw [observed_ids, seed_fold, h2]
    simp

theorem seed_fold_congr (groups : List GroupM) (devices devices' : List DeviceM)
    (hdevs : List.Forall₂ (fun a b : DeviceM => a.id = b.id ∧
      a.has_light_control = b.has_light_control ∧ a.lights.head? = b.lights.head?)
      devices devices') :
    ∀ st : List (Nat × LightM) × List Nat,
      devices.foldl (seed_step groups) st = devices'.foldl (seed_step groups) st := by
  induction hdevs with
  | nil => intro st; rfl
  | cons hab htail ih =>
    intro st
    rename_i a b l1 l2
    obtain ⟨hid, hcap, hhd⟩ := hab
    have hfl : first_light a = first_light b := by
      unfold first_light
      rw [hhd]
    have hstep : seed_step groups st a = seed_step groups st b := by
      unfold seed_step
      rw [hid, hcap, hfl]
    rw [List.foldl_cons, List.foldl_cons, hstep]
    exact ih _

/-- C10: both the seeding path and the observation update callback store only the
first light of a device's light-control unit: two updates that agree on id and
first light produce identical registries (hence identical group states), the
overwrite is last-write-wins, and two inventories agreeing pairwise on id,
capability, and first light seed identical registries. -/
theorem first_light_only (m : List (Nat × LightM)) (d d' : DeviceM)
    (groups : List GroupM) (devices devices' : List DeviceM) (grp : GroupM)
    (hid : d.id = d'.id) (hhd : d.lights.head? = d'.lights.head?)
    (hdevs : List.Forall₂ (fun a b : DeviceM => a.id = b.id ∧
      a.has_light_control = b.has_light_control ∧ a.lights.head? = b.lights.head?)
      devices devices') :
    observe_callback m d = observe_callback m d' ∧
      dictGet (observe_callback m d) d.id = some (first_light d) ∧
      get_group_state (observe_callback m d) grp
        = get_group_state (observe_callback m d') grp ∧
      seed_registry groups devices = seed_registry groups devices' := by
  have hfl : first_light d = first_light d' := by
    unfold first_light
    rw [hhd]
  have hcb : observe_callback m d = observe_callback m d' := by
    unfold observe_callback
    rw [hid, hfl]
  refine ⟨hcb, ?_, by rw [hcb], ?_⟩
  · unfold observe_callback
    rw [dictGet_dictSet]
    simp
  · unfold seed_registry seed_fold
    rw [seed_fold_congr groups devices devices' hdevs]

/-- A device with two lights, for concrete evaluation. -/
def dev_two_lights : DeviceM :=
  { id := 1, name := "Lamp", has_light_control := true, lights := [⟨true⟩, ⟨false⟩] }

/-- The same device with the second light dropped. -/
def dev_one_light : DeviceM :=
  { id := 1, name := "Lamp", has_light_control := true, lights := [⟨true⟩] }

/-- A one-member group used in the C10 witness. -/
def lamp_group : GroupM := { id := 2, name := "Lamp room", member_ids := [1] }

/-- C10 witness: dropping the second light of a device changes nothing the
program stores or derives. -/
theorem first_light_only_witness :
    observe_callback [] dev_two_lights = observe_callback [] dev_one_light ∧
      dictGet (observe_callback [] dev_two_lights) dev_two_lights.id
        = some (first_light dev_two_lights) ∧
      get_group_state (observe_callback [] dev_two_lights) lamp_group
        = get_group_state (observe_callback [] dev_one_light) lamp_group ∧
      seed_registry [lamp_group] [dev_two_lights]
        = seed_registry [lamp_group] [dev_one_light] :=
  first_light_only [] dev_two_lights dev_one_light [lamp_group]
    [dev_two_lights] [dev_one_light] lamp_group rfl rfl
    (List.Forall₂.cons ⟨rfl, rfl, rfl⟩ List.Forall₂.nil)

/-- The by-name comparison that the two list.sort(key=lambda x: x.name) calls
at lines 201 and 216 order by. -/
def name_le_mood (a b : MoodM) : Bool := decide (a.name ≤ b.name)

/-- The by-name comparison for groups (line 216). -/
def name_le_group (a b : GroupM) : Bool := decide (a.name ≤ b.name)

/-- The Scenes section of _update_menu, lines 200-208: all registry moods sorted
by name, skipping names in ignored_scenes; each surviving mood contributes one
labelled entry. -/
def list_moods (moods : List MoodM) (ignored_scenes : List String) : List String :=
  ((moods.mergeSort name_le_mood).filter
      (fun m => decide (m.name ∉ ignored_scenes))).map MoodM.name

/-- The Rooms section of _update_menu, lines 215-226: registry groups minus the
supergroup, sorted by name, skipping names in ignored_rooms; each surviving
group contributes its name with its (is_active, is_consistent) group state. -/
def list_rooms (groups : List GroupM) (lights : List (Nat × LightM))
    (ignored_rooms : List String) : List (String × (Bool × Bool)) :=
  (((groups.filter (fun g => g.id != SUPERGROUP)).mergeSort name_le_group).filter
      (fun g => decide (g.name ∉ ignored_rooms))).map
    (fun g => (g.name, get_group_state lights g))

/-- C8: the mood listing is exactly (a permutation of) the registry's moods with
non-ignored names, and is sorted by name; the room listing is exactly the
registry's groups minus the supergroup id and minus ignored names, sorted by
name, each paired with its (any_on, all_consistent) state. -/
theorem menu_listing_characterization (moods : List MoodM) (groups : List GroupM)
    (lights : List (Nat × LightM)) (ignored_scenes ignored_rooms : List String) :
    List.Perm (list_moods moods ignored_scenes)
        ((moods.filter (fun m => decide (m.name ∉ ignored_scenes))).map MoodM.name) ∧
      (list_moods moods ignored_scenes).Pairwise (fun a b => a ≤ b) ∧
      List.Perm (list_rooms groups lights ignored_rooms)
        (((groups.filter (fun g => g.id != SUPERGROUP)).filter
            (fun g => decide (g.name ∉ ignored_rooms))).map
          (fun g => (g.name, get_group_state lights g))) ∧
      (list_rooms groups lights ignored_rooms).Pairwise (fun a b => a.1 ≤ b.1) := by
  refine ⟨?_, ?_, ?_, ?_⟩
  · exact ((List.mergeSort_perm moods name_le_mood).filter _).map _
  · have hs : (moods.mergeSort name_le_mood).Pairwise (fun a b => name_le_mood a b) := by
      apply List.sorted_mergeSort
      · intro a b c hab hbc
        simp only [name_le_mood, decide_eq_true_eq] at *
        exact le_trans hab hbc
      · intro a b
        simp only [name_le_mood]
        simpa using le_total a.name b.name
    have hf := hs.filter (fun m => decide (m.name ∉ ignored_scenes))
    exact hf.map MoodM.name (by
      intro a b h
      simpa [name_le_mood] using h)
  · exact ((List.mergeSort_perm (groups.filter (fun g => g.id != SUPERGROUP))
      name_le_group).filter _).map _
  · have hs : ((groups.filter (fun g => g.id != SUPERGROUP)).mergeSort
        name_le_group).Pairwise (fun a b => name_le_group a b) := by
      apply List.sorted_mergeSort
      · intro a b c hab hbc
        simp only [name_le_group, decide_eq_true_eq] at *
        exact le_trans hab hbc
      · intro a b
        simp only [name_le_group]
        simpa using le_total a.name b.name
    have hf := hs.filter (fun g => decide (g.name ∉ ignored_rooms))
    apply hf.map
    intro a b h
    simp only [name_le_group, decide_eq_true_eq] at h
    exact h

/-- How one subscription terminates: its 300-unit duration elapsed (delivered
to err_callback as the expected payload), or any other failure description. -/
inductive SubOutcome where
  | expired : SubOutcome
  | failed : String → SubOutcome
  deriving DecidableEq, Repr

/-- An externally visible action of the observer worker loop (lines 264-272). -/
inductive WorkerAct where
  | subscribe : Nat → WorkerAct
  | cooldown : Nat → WorkerAct
  deriving DecidableEq, Repr

/-- One iteration of worker, lines 265-270: execute the observe command with
duration=300 — the call returns only once the subscription has terminated, its
outcome having been delivered through the callbacks — then time.sleep(5).
The body branches on nothing, so the outcome does not influence the actions. -/
def worker_iteration (_outcome : SubOutcome) : List WorkerAct :=
  [WorkerAct.subscribe 300, WorkerAct.cooldown 5]

/-- The actions of the first n complete iterations of the while True loop of
worker, for a given stream of subscription outcomes. The loop has no exit, so
the trace is defined for every n. -/
def worker_trace (outcomes : Nat → SubOutcome) : Nat → List WorkerAct
  | 0 => []
  | n + 1 => worker_trace outcomes n ++ worker_iteration (outcomes n)

/-- C5: the observer task is an unbounded loop — for every outcome stream and
every n the trace is defined and has exactly 2n actions, and each iteration
unconditionally appends a duration-300 subscription followed by the fixed
5-unit cool-down, identically for an expired subscription and for any failure;
there is no terminal state and no retry bound. -/
theorem worker_loop_characterization (outcomes : Nat → SubOutcome) (n : Nat) :
    worker_trace outcomes (n + 1)
        = worker_trace outcomes n ++ [WorkerAct.subscribe 300, WorkerAct.cooldown 5] ∧
      (worker_trace outcomes n).length = 2 * n ∧
      (∀ o o' : SubOutcome, worker_iteration o = worker_iteration o') := by
  refine ⟨rfl, ?_, fun o o' => rfl⟩
  induction n with
  | zero => rfl
  | succ k ih =>
    rw [worker_trace, List.length_append, ih]
    simp [worker_iteration]
    omega

/-- Modelled from the spec: the Rate-Limited Dispatcher. _execute_api
(lines 274-278) is the single gateway call path and is decorated with
sleep_and_retry and limits with calls=2, period=1; the limiter implementation
behind those decorators belongs to the external ratelimit package and is not
among this repository's sources. Following the spec's words: a call may begin
at time t (in seconds) only when fewer than 2 already-admitted calls began in
the rolling 1-second window reaching back from t; a caller that finds the
quota exhausted is delayed until the admission rule lets it begin —
back-pressure, never an error. DispatcherTrace ts states that the begin
times ts, listed most recent first, are admissible. -/
inductive DispatcherTrace : List ℚ → Prop where
  | nil : DispatcherTrace []
  | cons (t : ℚ) (ts : List ℚ) (hord : ∀ s ∈ ts, s ≤ t)
      (hquota : ts.countP (fun s => decide (t < s + 1)) < 2)
      (htail : DispatcherTrace ts) : DispatcherTrace (t :: ts)

/-- C3: in every admissible dispatcher trace, at most 2 calls begin within any
rolling 1-second window (w, w + 1], regardless of how many concurrent callers
produced the trace. -/
theorem dispatcher_rolling_window_bound (ts : List ℚ) (h : DispatcherTrace ts) (w : ℚ) :
    ts.countP (fun s => decide (w < s ∧ s ≤ w + 1)) ≤ 2 := by
  induction h with
  | nil => simp
  | cons t ts hord hquota htail ih =>
    rw [List.countP_cons]
    by_cases hw : w < t ∧ t ≤ w + 1
    · have hsub : ∀ s ∈ ts,
          decide (w < s ∧ s ≤ w + 1) = true → decide (t < s + 1) = true := by
        intro s hs hdec
        rw [decide_eq_true_eq] at hdec ⊢
        have h1 : w < s := hdec.1
        have h2 : t ≤ w + 1 := hw.2
        linarith
      have hle := List.countP_mono_left hsub
      have h1 : ts.countP (fun s => decide (w < s ∧ s ≤ w + 1)) ≤ 1 := by omega
      have h2 : decide (w < t ∧ t ≤ w + 1) = true := by
        rw [decide_eq_true_eq]
        exact hw
      rw [h2, if_pos rfl]
      omega
    · have h2 : decide (w < t ∧ t ≤ w + 1) = false := by
        rw [decide_eq_false_iff_not]
        exact hw
      rw [h2]
      simpa using ih

/-- C3 witness: three calls beginning one second apart form an admissible trace,
and the window (0, 1] holds at most 2 of them. -/
theorem dispatcher_rolling_window_bound_witness :
    List.countP (fun s => decide ((0 : ℚ) < s ∧ s ≤ 0 + 1)) [2, 1, 0] ≤ 2 :=
  dispatcher_rolling_window_bound [2, 1, 0]
    (DispatcherTrace.cons 2 [1, 0] (by norm_num)
        (by norm_num [List.countP, List.countP.go])
      (DispatcherTrace.cons 1 [0] (by norm_num)
          (by norm_num [List.countP, List.countP.go])
        (DispatcherTrace.cons 0 [] (by norm_num)
            (by norm_num [List.countP, List.countP.go]) DispatcherTrace.nil))) 0

/-
The Update Coordinator (_need_menu_update, a threading.Condition) as a
transition system. The correspondence with the source:
- the consumer thread _update_menu (lines 189-235) holds the condition's lock
  at all times except inside wait(), so while it rebuilds the menu (busy) no
  _set_needs_menu_update caller can enter the with-block;
- finishRebuild: the consumer reaches wait() at line 192, releasing the lock;
- notify: one blocked _set_needs_menu_update invocation (lines 185-187)
  acquires the lock and runs notify_all(): a consumer sitting un-notified in
  wait() becomes notified (ready); a notify_all() towards an already-notified
  consumer changes nothing — this is the coalescing;
- wake: the notified consumer reacquires the lock and returns from wait(),
  starting one rebuild (counted in wakes).
pending counts signal invocations that arrived while the consumer was busy
and have not yet delivered their notify_all.
-/

/-- Phase of the rebuild consumer thread. -/
inductive ConsumerPhase where
  | busy : ConsumerPhase
  | waiting : ConsumerPhase
  | ready : ConsumerPhase
  deriving DecidableEq, Repr

/-- Coordinator state: consumer phase, signalers still blocked on the lock,
and the number of wakes (returns from wait) so far. -/
structure CoordState where
  consumer : ConsumerPhase
  pending : Nat
  wakes : Nat
  deriving DecidableEq, Repr

/-- A scheduler-chosen event of the coordinator. -/
inductive CoordEvent where
  | finishRebuild : CoordEvent
  | notify : CoordEvent
  | wake : CoordEvent
  deriving DecidableEq, Repr

/-- One transition; none is returned when the event is not enabled (a notify
needs the lock free and a blocked signaler; a wake needs a notified consumer). -/
def coordStep (s : CoordState) (e : CoordEvent) : Option CoordState :=
  match e with
  | CoordEvent.finishRebuild =>
      if s.consumer = ConsumerPhase.busy then
        some ⟨ConsumerPhase.waiting, s.pending, s.wakes⟩
      else none
  | CoordEvent.notify =>
      if s.consumer ≠ ConsumerPhase.busy ∧ 1 ≤ s.pending then
        some ⟨ConsumerPhase.ready, s.pending - 1, s.wakes⟩
      else none
  | CoordEvent.wake =>
      if s.consumer = ConsumerPhase.ready then
        some ⟨ConsumerPhase.busy, s.pending, s.wakes + 1⟩
      else none

/-- Run a schedule of events from a state. -/
def coordRun (s : CoordState) : List CoordEvent → Option CoordState
  | [] => some s
  | e :: es =>
    match coordStep s e with
    | none => none
    | some s2 => coordRun s2 es

/-- 1 when the consumer holds an undelivered notification. -/
def readyBit : ConsumerPhase → Nat
  | ConsumerPhase.ready => 1
  | _ => 0

theorem coordStep_inv (k : Nat) (s s2 : CoordState) (e : CoordEvent)
    (h : coordStep s e = some s2)
    (hup : s.wakes + readyBit s.consumer + s.pending ≤ k)
    (hlow : s.pending < k → 1 ≤ s.wakes + readyBit s.consumer)
    (hpb : s.pending ≤ k) :
    s2.wakes + readyBit s2.consumer + s2.pending ≤ k ∧
      (s2.pending < k → 1 ≤ s2.wakes + readyBit s2.consumer) ∧ s2.pending ≤ k := by
  obtain ⟨c, p, w⟩ := s
  cases e with
  | finishRebuild =>
    rw [coordStep] at h
    split at h
    · rename_i hc
      simp only at hc
      subst hc
      cases h
      simp only [readyBit] at *
      exact ⟨by omega, by omega, by omega⟩
    · cases h
  | notify =>
    rw [coordStep] at h
    split at h
    · rename_i hc
      obtain ⟨hcb, hp1⟩ := hc
      simp only at hcb hp1
      cases h
      cases c with
      | busy => exact absurd rfl hcb
      | waiting =>
        simp only [readyBit] at *
        exact ⟨by omega, by omega, by omega⟩
      | ready =>
        simp only [readyBit] at *
        exact ⟨by omega, by omega, by omega⟩
    · cases h
  | wake =>
    rw [coordStep] at h
    split at h
    · rename_i hc
      simp only at hc
      subst hc
      cases h
      simp only [readyBit] at *
      exact ⟨by omega, by omega, by omega⟩
    · cases h

theorem coordRun_inv (k : Nat) (evs : List CoordEvent) (s s2 : CoordState)
    (h : coordRun s evs = some s2)
    (hup : s.wakes + readyBit s.consumer + s.pending ≤ k)
    (hlow : s.pending < k → 1 ≤ s.wakes + readyBit s.consumer)
    (hpb : s.pending ≤ k) :
    s2.wakes + readyBit s2.consumer + s2.pending ≤ k ∧
      (s2.pending < k → 1 ≤ s2.wakes + readyBit s2.consumer) ∧ s2.pending ≤ k := by
  induction evs generalizing s with
  | nil =>
    rw [coordRun] at h
    cases h
    exact ⟨hup, hlow, hpb⟩
  | cons e es ih =>
    rw [coordRun] at h
    cases hst : coordStep s e with
    | none => rw [hst] at h; cases h
    | some sm =>
      rw [hst] at h
      obtain ⟨h1, h2, h3⟩ := coordStep_inv k s sm e hst hup hlow hpb
      exact ih sm h h1 h2 h3

/-- C4 counterexample: two signal invocations arriving while the consumer is
busy need not coalesce into exactly one wake. After the first blocked signaler
notifies, the consumer can win the race for the lock, complete a rebuild, and
wait again before the second blocked signaler delivers its notify: that valid
complete schedule (both signals delivered, no undelivered notification left)
ends with 2 wakes, not 1. -/
theorem signal_coalescing_exactly_one_false :
    coordRun ⟨ConsumerPhase.busy, 2, 0⟩
        [CoordEvent.finishRebuild, CoordEvent.notify, CoordEvent.wake,
          CoordEvent.finishRebuild, CoordEvent.notify, CoordEvent.wake]
      = some ⟨ConsumerPhase.busy, 0, 2⟩ := by
  decide

/-- C4 amended: k ≥ 1 signal invocations arriving while the rebuild consumer is
busy produce, by the end of any schedule that delivers every signal and leaves
no undelivered notification, at least one and at most k subsequent wakes —
never zero (no lost wake-up) and never more than k; all notifications delivered
during a single waiting period coalesce into one wake. -/
theorem signal_coalescing_bounds (k : Nat) (evs : List CoordEvent) (s : CoordState)
    (hk : 1 ≤ k)
    (hrun : coordRun ⟨ConsumerPhase.busy, k, 0⟩ evs = some s)
    (hdone : s.pending = 0) (hnr : s.consumer ≠ ConsumerPhase.ready) :
    1 ≤ s.wakes ∧ s.wakes ≤ k := by
  obtain ⟨h1, h2, h3⟩ := coordRun_inv k evs ⟨ConsumerPhase.busy, k, 0⟩ s hrun
    (by simp [readyBit]) (by simp) (by simp)
  have hrb : readyBit s.consumer = 0 := by
    cases hc : s.consumer with
    | busy => rfl
    | waiting => rfl
    | ready => exact absurd hc hnr
  rw [hrb] at h1 h2
  rw [hdone] at h1 h2
  exact ⟨by omega, by omega⟩

/-- C4 witness: one signal arriving during a rebuild, delivered and consumed,
yields exactly one wake (within the bounds 1 ≤ wakes ≤ 1). -/
theorem signal_coalescing_bounds_witness :
    1 ≤ (CoordState.mk ConsumerPhase.busy 0 1).wakes ∧
      (CoordState.mk ConsumerPhase.busy 0 1).wakes ≤ 1 :=
  signal_coalescing_bounds 1
    [CoordEvent.finishRebuild, CoordEvent.notify, CoordEvent.wake]
    (CoordState.mk ConsumerPhase.busy 0 1) (by decide) (by decide) rfl (by decide)
